import Mathlib

/-!
Verification development for the sysrepo module-registry layer
(`src/lyd_mods.c`): dependency extraction, the deferred-schedule
operations, and the scheduled-change apply pipeline, embedded shallowly
in Lean.  Module and node names, error kinds, and the registry tree are
modelled directly after the persisted `sysrepo-modules` document; the
external schema engine (libyang) is modelled at its interface.
-/

set_option maxRecDepth 4000

/-! ## Error kinds (sr_error_info_t codes used by the schedule manager) -/

/-- Error codes produced by the schedule-manager entry points
(`SR_ERR_EXISTS` / `SR_ERR_NOT_FOUND`). -/
inductive SrErrCode where
  | srExists
  | srNotFound
deriving DecidableEq, Repr

/-- An error value: a code plus the message text produced by
`sr_errinfo_new` (module name elided from the message; it is the
caller-supplied argument). -/
structure SrError where
  code : SrErrCode
  msg : String
deriving DecidableEq, Repr

/-! ## Dependency facts (contents of `data-deps` / op-dep containers) -/

/-- A dependency fact stored under a `data-deps`/`in`/`out` container:
either a `module` leaf-list entry (forward module reference) or an
`inst-id` list entry (instance-identifier site with its data path and
optional default target module).  Mirrors `sr_mod_dep_type_t`
(`SR_DEP_REF` / `SR_DEP_INSTID`). -/
inductive DepFact where
  | ref (module : String)
  | instid (xpath : String) (defaultModule : Option String)
deriving DecidableEq, Repr

/-- Key match used by `sr_lydmods_moddep_add` to detect duplicates:
a `module` entry matches on the module name (`module[.='name']`),
an `inst-id` entry matches on the data path only
(`inst-id[xpath='path']`), ignoring the default module. -/
def depKeyMatches : DepFact → DepFact → Bool
  | .ref m, .ref n => m = n
  | .instid p _, .instid q _ => p = q
  | _, _ => false

/-- Whether `sr_deps` already holds a fact with the same key as `f`
(the `lyd_find_xpath` duplicate probe in `sr_lydmods_moddep_add`). -/
def depHasKey (deps : List DepFact) (f : DepFact) : Bool :=
  deps.any (fun g => depKeyMatches f g)

/-- `sr_lydmods_moddep_add`: append the dependency fact unless a fact
with the same key is already recorded. -/
def sr_lydmods_moddep_add (deps : List DepFact) (f : DepFact) : List DepFact :=
  if depHasKey deps f then deps else deps ++ [f]

/-- Fold `sr_lydmods_moddep_add` over a list of facts (a run of the
extraction writing into one dependency container). -/
def moddepAddAll (deps : List DepFact) (fs : List DepFact) : List DepFact :=
  fs.foldl sr_lydmods_moddep_add deps

/-- `sr_lydmods_add_inv_data_dep`: append the inverse-dependency module
name unless an `inverse-data-deps` entry with that value exists. -/
def sr_lydmods_add_inv_data_dep (invs : List String) (m : String) : List String :=
  if invs.any (fun x => x = m) then invs else invs ++ [m]

/-- Fold `sr_lydmods_add_inv_data_dep` over a list of names. -/
def invAddAll (invs : List String) (ms : List String) : List String :=
  ms.foldl sr_lydmods_add_inv_data_dep invs

/-! ## Compiled schema nodes and the foreign-ness rule -/

/-- Schema node kinds (`LYS_*` nodetypes relevant here). -/
inductive NodeKind where
  | container
  | choice
  | leaf
  | leaflist
  | list
  | anydata
  | anyxml
  | casek
  | rpc
  | action
  | notif
deriving DecidableEq, Repr

/-- Whether a kind is an operation (`LYS_RPC | LYS_ACTION | LYS_NOTIF`). -/
def NodeKind.isOp : NodeKind → Bool
  | .rpc => true
  | .action => true
  | .notif => true
  | _ => false

/-- A compiled schema node (`struct lysc_node`) as seen by the
foreign-ness check: its name, kind, owning module, and parent chain.
A node is `root` when `parent == NULL`.  Node identity (C pointer
identity) is value identity here; schema names make distinct nodes
distinct values. -/
inductive SNode where
  | root (name : String) (kind : NodeKind) (mod : String)
  | child (name : String) (kind : NodeKind) (mod : String) (parent : SNode)
deriving DecidableEq, Repr

/-- The kind of a node. -/
def SNode.kind : SNode → NodeKind
  | .root _ k _ => k
  | .child _ k _ _ => k

/-- The owning module of a node (`node->module`). -/
def SNode.mod : SNode → String
  | .root _ _ m => m
  | .child _ _ m _ => m

/-- Whether the node is top-level (`parent == NULL`). -/
def SNode.isRoot : SNode → Bool
  | .root _ _ _ => true
  | .child _ _ _ _ => false

/-- The node together with all its ancestors, nearest first. -/
def SNode.ancestors : SNode → List SNode
  | .root n k m => [.root n k m]
  | .child n k m p => .child n k m p :: p.ancestors

/-- The top-level ancestor of a node. -/
def SNode.topAnc : SNode → SNode
  | .root n k m => .root n k m
  | .child _ _ _ p => p.topAnc

/-- The walk in `sr_lydmods_moddep_expr_atom_is_foreign`:
`while (atom->parent && (atom != top_node)) atom = atom->parent;`. -/
def srWalkUp : SNode → SNode → SNode
  | .root n k m, _ => .root n k m
  | .child n k m p, top =>
      if SNode.child n k m p = top then .child n k m p else srWalkUp p top

/-- `sr_lydmods_moddep_expr_atom_is_foreign`: walk the atom up towards
the expression top node; if the walk ends at the top node the atom is
local; otherwise, if the top node is an operation the atom is foreign
regardless of module; otherwise the atom is foreign exactly when the
modules of the two top-level ancestors differ.  Returns the foreign
dependency module, `none` if the atom is not foreign. -/
def sr_lydmods_moddep_expr_atom_is_foreign (atom top : SNode) : Option String :=
  let a := srWalkUp atom top
  if a = top then
    none
  else if top.kind.isOp then
    some a.mod
  else if a.mod ≠ top.mod then
    some a.mod
  else
    none

/-- The top-node computation at the head of
`sr_lydmods_moddep_expr_get_dep_mods`: from the expression context node,
walk up until an action/notification or a parentless node is reached. -/
def srFindTopNode : SNode → SNode
  | .root n k m => .root n k m
  | .child n k m p =>
      if k = NodeKind.action ∨ k = NodeKind.notif then .child n k m p
      else srFindTopNode p

/-- The dedup-accumulating loop of `sr_lydmods_moddep_expr_get_dep_mods`
over the atoms of one expression (`lys_atomize_xpath` output is the
`atoms` list): every foreign atom's module is appended to `dep_mods`
unless already present. -/
def sr_lydmods_moddep_expr_get_dep_mods (top : SNode) (atoms : List SNode)
    (acc : List String) : List String :=
  match atoms with
  | [] => acc
  | a :: rest =>
      match sr_lydmods_moddep_expr_atom_is_foreign a top with
      | none => sr_lydmods_moddep_expr_get_dep_mods top rest acc
      | some m =>
          sr_lydmods_moddep_expr_get_dep_mods top rest
            (if m ∈ acc then acc else acc ++ [m])

/-- Accumulation of `dep_mods` across all when/must expressions of one
node (`sr_lydmods_add_data_deps_r` keeps one `dep_mods` array per node
and passes it to `..._get_dep_mods` for each expression in turn). -/
def getDepModsAll (top : SNode) (exprAtoms : List (List SNode)) : List String :=
  exprAtoms.foldl (fun acc atoms => sr_lydmods_moddep_expr_get_dep_mods top atoms acc) []

/-- The loop at the end of `sr_lydmods_add_data_deps_r` that feeds every
collected dependency module into `sr_lydmods_moddep_add` as a
`SR_DEP_REF` fact. -/
def moddepAddRefs (deps : List DepFact) (mods : List String) : List DepFact :=
  mods.foldl (fun d m => sr_lydmods_moddep_add d (.ref m)) deps

/-- Number of `module` reference facts for module `m` in a dependency
container. -/
def refCount (deps : List DepFact) (m : String) : Nat :=
  deps.count (.ref m)

/-! ## Schema subtree traversal (`sr_lydmods_add_data_deps_r` / `sr_lydmods_add_op_deps`) -/

/-- A compiled schema subtree as consumed by `sr_lydmods_add_data_deps_r`.
Expressions are modelled at the schema-engine interface: each when/must
condition is represented by the list of foreign dependency modules that
`sr_lydmods_moddep_expr_get_dep_mods` returns for it, and the node's
type contribution (`sr_lydmods_moddep_type`) by the list of facts it
feeds to `sr_lydmods_moddep_add`.  For an RPC/action, `inMusts` and
`outMusts` are the operation's own `input.musts`/`output.musts` arrays
and `inData`/`outData` its `input.data`/`output.data` subtree pointers;
`children` are the nodes the schema-tree DFS continues into. -/
inductive STree where
  | node (name : String) (kind : NodeKind) (disabled : Bool)
      (whens : List (List String)) (musts : List (List String))
      (typeFacts : List DepFact)
      (inMusts outMusts : List (List String))
      (inData outData : Option STree)
      (children : List STree)

/-- An `op-deps` record: the operation's data path plus the separate
`in` and `out` dependency containers. -/
structure OpRec where
  xpath : String
  inDeps : List DepFact
  outDeps : List DepFact
deriving DecidableEq, Repr

/-- Traversal state: the dependency container currently written
(`sr_deps`) and the `op-deps` records attached to the module
(`sr_mod`). -/
structure DepAcc where
  deps : List DepFact
  ops : List OpRec
deriving DecidableEq, Repr

/-- Per-node accumulation of `dep_mods` across a node's expression
lists with the dedup of `sr_lydmods_moddep_expr_get_dep_mods`. -/
def dedupAccum (acc : List String) (mods : List String) : List String :=
  mods.foldl (fun a m => if m ∈ a then a else a ++ [m]) acc

/-- Accumulate `dep_mods` over all expressions (when clauses first, then
the selected must array, as in the `LY_ARRAY_FOR` loops). -/
def dedupAccumAll (exprs : List (List String)) : List String :=
  exprs.foldl dedupAccum []

mutual

/-- One visited element of `sr_lydmods_add_data_deps_r` plus the DFS
over its subtree.  `isRoot` is the C condition `elem == data_root`,
`output` the traversal flag.  Mirrors the `switch (elem->nodetype)`:
leaf kinds contribute their type facts, choice/case only their when
conditions, and for an RPC/action that is itself the traversal root the
collected musts are `input.musts` when `output` is set and
`output.musts` otherwise (lines 686-693); nested operations are emitted
as separate `op-deps` computations and their subtree skipped. -/
def srDepsNode (output isRoot : Bool) (st : DepAcc) : STree → DepAcc
  | .node nm kind disabled whens musts typeFacts inM outM inData outData children =>
    if disabled then st
    else if kind = .rpc ∨ kind = .action then
      match isRoot with
      | true =>
          let ms := if output then inM else outM
          let deps2 := moddepAddRefs st.deps (dedupAccumAll ms)
          srDepsList output { st with deps := deps2 } children
      | false =>
          let tt := STree.node nm kind disabled whens musts typeFacts inM outM inData outData children
          { st with ops := srAddOpDeps st.ops tt }
    else if kind = .notif then
      match isRoot with
      | true =>
          let deps2 := moddepAddRefs st.deps (dedupAccumAll musts)
          srDepsList output { st with deps := deps2 } children
      | false =>
          let tt := STree.node nm kind disabled whens musts typeFacts inM outM inData outData children
          { st with ops := srAddOpDeps st.ops tt }
    else
      let tf := if kind = .leaf ∨ kind = .leaflist then typeFacts else []
      let ms := if kind = .choice ∨ kind = .casek then [] else musts
      let deps1 := moddepAddAll st.deps tf
      let deps2 := moddepAddRefs deps1 (dedupAccumAll (whens ++ ms))
      srDepsList output { st with deps := deps2 } children
termination_by t => (sizeOf t, if isRoot then 0 else 2)

/-- DFS continuation over the remaining children. -/
def srDepsList (output : Bool) (st : DepAcc) : List STree → DepAcc
  | [] => st
  | t :: rest => srDepsList output (srDepsNode output false st t) rest
termination_by ts => (sizeOf ts, 1)

/-- `sr_lydmods_add_op_deps`: skip if an `op-deps` record with the same
xpath exists; otherwise create the record.  A notification is traversed
once with the operation node itself as `data_root`; an RPC/action gets
its `in` container from a traversal of `act->input.data` with
`output=0` and its `out` container from a traversal of
`act->output.data` with `output=1`, each into a fresh container. -/
def srAddOpDeps (ops : List OpRec) : STree → List OpRec
  | .node nm kind disabled whens musts typeFacts inM outM inData outData children =>
    if ops.any (fun r => r.xpath = nm) then ops
    else if kind = .notif then
      let tt := STree.node nm kind disabled whens musts typeFacts inM outM inData outData children
      let stIn := srDepsNode false true ⟨[], ops⟩ tt
      stIn.ops ++ [⟨nm, stIn.deps, []⟩]
    else
      let stIn :=
        match inData with
        | some r => srDepsNode false true ⟨[], ops⟩ r
        | none => ⟨[], ops⟩
      let stOut :=
        match outData with
        | some r => srDepsNode true true ⟨[], stIn.ops⟩ r
        | none => ⟨[], stIn.ops⟩
      stOut.ops ++ [⟨nm, stIn.deps, stOut.deps⟩]
termination_by t => (sizeOf t, 1)

end

/-- A leaf schema node with no dependencies of its own. -/
def plainLeaf (nm : String) : STree :=
  .node nm .leaf false [] [] [] [] [] none none []

/-- Demo action for the operation-dependency computation: its input side
carries a must constraint referencing foreign module `mi`, its output
side a must constraint referencing foreign module `mo`; both sides hold
one dependency-free leaf. -/
def c3DemoAct : STree :=
  .node "act" .action false [] [] [] [["mi"]] [["mo"]]
    (some (plainLeaf "ia")) (some (plainLeaf "oa")) []

/-! ## The persisted registry (`sysrepo-modules` document) -/

/-- A `changed-feature` marker entry: feature name and requested change
(`enable` = true, `disable` = false). -/
structure ChangedFeat where
  name : String
  enable : Bool
deriving DecidableEq, Repr

/-- A `module` list entry of the persisted registry, with its
at-most-one-of schedule markers (`removed`, `updated-yang`,
`changed-feature*`). -/
structure SrModule where
  name : String
  revision : Option String
  enabledFeatures : List String
  dataDeps : List DepFact
  opDeps : List OpRec
  inverseDeps : List String
  replaySupport : Option Nat
  removed : Bool
  updatedYang : Option String
  changedFeatures : List ChangedFeat
deriving DecidableEq, Repr

/-- An `installed-module` (staged install) entry: name, revision,
requested features, the full schema source (`module-yang`) and the
occurrences of the optional serialized seed-data leaf (`data`; the
schema allows at most one). -/
structure InstalledMod where
  name : String
  revision : Option String
  enabledFeatures : List String
  moduleYang : String
  dataPayloads : List String
deriving DecidableEq, Repr

/-- The whole persisted registry document. -/
structure SrMods where
  modules : List SrModule
  installed : List InstalledMod
deriving DecidableEq, Repr

/-- `module[name='n']` lookup. -/
def findModule (st : SrMods) (n : String) : Option SrModule :=
  st.modules.find? (fun m => m.name = n)

/-- `installed-module[name='n']` lookup. -/
def findInstalled (st : SrMods) (n : String) : Option InstalledMod :=
  st.installed.find? (fun m => m.name = n)

/-- Whether a staged-install entry for `n` exists. -/
def stagedExists (st : SrMods) (n : String) : Bool :=
  (findInstalled st n).isSome

/-- A fresh `module` record as created by `lyd_new_path` when a
schedule path is instantiated for a module with no record yet. -/
def emptySrModule (n : String) : SrModule :=
  { name := n, revision := none, enabledFeatures := [], dataDeps := [],
    opDeps := [], inverseDeps := [], replaySupport := none,
    removed := false, updatedYang := none, changedFeatures := [] }

/-! ## Schedule-manager operations -/

/-- What `sr_lydmods_deferred_add_module` reads from the libyang module
handle: name, revision and the schema text printed by `lys_print_mem`. -/
structure LyModInfo where
  name : String
  revision : Option String
  yangText : String
deriving DecidableEq, Repr

/-- A parsed module with its import tree
(`ly_mod->parsed->imports`, each import carrying its implemented flag),
as walked by `sr_lydmods_unsched_del_module_r`. -/
inductive LysModule where
  | mk (name : String) (implemented : Bool) (imports : List LysModule)

/-- Name of a parsed module. -/
def LysModule.name : LysModule → String
  | .mk n _ _ => n

/-- Implemented flag of a parsed module. -/
def LysModule.implemented : LysModule → Bool
  | .mk _ i _ => i

/-- Outcome of a read-modify-write schedule operation: the persisted
registry after the call, and the error if any.  Every error path in the
C functions skips `sr_lydmods_print`, so on error the persisted
registry is the input one. -/
structure OpResult where
  persisted : SrMods
  err : Option SrError
deriving DecidableEq, Repr

/-- `sr_lydmods_deferred_add_module`: parse the persisted registry; if
an `installed-module` entry for the module already exists fail with
`SR_ERR_EXISTS`; otherwise create the staged entry (name, revision,
requested features, printed schema text) and store the registry. -/
def sr_lydmods_deferred_add_module (persisted : SrMods) (lyMod : LyModInfo)
    (features : List String) : OpResult :=
  if stagedExists persisted lyMod.name then
    ⟨persisted, some ⟨.srExists, "Module already scheduled for installation."⟩⟩
  else
    let entry : InstalledMod :=
      ⟨lyMod.name, lyMod.revision, features, lyMod.yangText, []⟩
    ⟨{ persisted with installed := persisted.installed ++ [entry] }, none⟩

/-- `sr_lydmods_unsched_add_module`: if no `installed-module` entry for
the module exists fail with `SR_ERR_NOT_FOUND`; otherwise remove the
entry and store the registry. -/
def sr_lydmods_unsched_add_module (persisted : SrMods) (moduleName : String) : OpResult :=
  if stagedExists persisted moduleName then
    ⟨{ persisted with
        installed := persisted.installed.eraseP (fun e => e.name = moduleName) }, none⟩
  else
    ⟨persisted, some ⟨.srNotFound, "Module not scheduled for installation."⟩⟩

/-- `sr_lydmods_unsched_upd_module`: if the module carries no
`updated-yang` marker fail with `SR_ERR_NOT_FOUND`; otherwise drop the
marker and store the registry. -/
def sr_lydmods_unsched_upd_module (persisted : SrMods) (modName : String) : OpResult :=
  let marked :=
    match findModule persisted modName with
    | some m => m.updatedYang.isSome
    | none => false
  if marked then
    ⟨{ persisted with modules := persisted.modules.map (fun m =>
        if m.name = modName then { m with updatedYang := none } else m) }, none⟩
  else
    ⟨persisted, some ⟨.srNotFound, "Module not scheduled for an update."⟩⟩

/-- Clear the `removed` marker of one module record. -/
def clearRemoved (st : SrMods) (n : String) : SrMods :=
  { st with modules := st.modules.map (fun m =>
      if m.name = n then { m with removed := false } else m) }

mutual

/-- `sr_lydmods_unsched_del_module_r`: if the module carries no
`removed` marker and this is the first (entry) module, fail with
`SR_ERR_NOT_FOUND`; otherwise clear the marker when present, then
recurse into all implemented imports with `first = 0`. -/
def sr_lydmods_unsched_del_module_r (st : SrMods) (first : Bool) :
    LysModule → Except SrError SrMods
  | .mk nm _ imports =>
      let marked :=
        match findModule st nm with
        | some m => m.removed
        | none => false
      if !marked && first then
        .error ⟨.srNotFound, "Module not scheduled for deletion."⟩
      else
        unschedDelImports (if marked then clearRemoved st nm else st) imports

/-- Recursion of `sr_lydmods_unsched_del_module_r` over the import
array, visiting implemented imports only. -/
def unschedDelImports (st : SrMods) : List LysModule → Except SrError SrMods
  | [] => .ok st
  | m :: rest =>
      if m.implemented then
        match sr_lydmods_unsched_del_module_r st false m with
        | .error e => .error e
        | .ok st1 => unschedDelImports st1 rest
      else
        unschedDelImports st rest

end

/-- `sr_lydmods_unsched_del_module_with_imps`: parse, run the recursive
unschedule, store only on success. -/
def sr_lydmods_unsched_del_module_with_imps (persisted : SrMods)
    (lyMod : LysModule) : OpResult :=
  match sr_lydmods_unsched_del_module_r persisted true lyMod with
  | .error e => ⟨persisted, some e⟩
  | .ok st1 => ⟨st1, none⟩

/-- The removal of the previously attached `data` leaf in
`sr_lydmods_deferred_add_module_data`: the first `data` child found is
freed and the loop breaks. -/
def removeFirstPayload : List String → List String
  | [] => []
  | _ :: rest => rest

/-- `sr_lydmods_deferred_add_module_data`: find the staged-install
entry (reporting `SR_ERR_EXISTS` with a "not scheduled" message when it
is missing, as the C does at line 2245); remove any previously set
`data` leaf; append a new `data` leaf holding the serialized
(`lyd_print_mem`) payload.  Operates on the in-memory registry; the
caller stores it. -/
def sr_lydmods_deferred_add_module_data (st : SrMods) (moduleName : String)
    (dataJson : String) : Except SrError SrMods :=
  if stagedExists st moduleName then
    .ok { st with installed := st.installed.map (fun e =>
      if e.name = moduleName then
        { e with dataPayloads := removeFirstPayload e.dataPayloads ++ [dataJson] }
      else e) }
  else
    .error ⟨.srExists, "Module not scheduled for installation."⟩

/-- The `module[name=..]/changed-feature[name=..]/change` lookup of
`sr_lydmods_deferred_change_feature`. -/
def findChangedFeat (st : SrMods) (modName featName : String) : Option Bool :=
  match findModule st modName with
  | some m => (m.changedFeatures.find? (fun cf => cf.name = featName)).map (fun cf => cf.enable)
  | none => none

/-- `sr_lydmods_deferred_change_feature`: when a change for the feature
is already scheduled, fail with `SR_ERR_EXISTS` if it requests the same
direction, otherwise unschedule it; when none is scheduled, fail with
`SR_ERR_EXISTS` if the feature is already in the requested state
(`is_enabled` is supplied by the caller), otherwise schedule the change
(`lyd_new_path` creates the module record when absent).  Errors skip
the store. -/
def sr_lydmods_deferred_change_feature (persisted : SrMods)
    (modName featName : String) (toEnable isEnabled : Bool) : OpResult :=
  match findChangedFeat persisted modName featName with
  | some dir =>
      if dir = toEnable then
        ⟨persisted, some ⟨.srExists, "Module feature already scheduled to be changed."⟩⟩
      else
        ⟨{ persisted with modules := persisted.modules.map (fun m =>
            if m.name = modName then
              { m with changedFeatures :=
                  m.changedFeatures.eraseP (fun cf => cf.name = featName) }
            else m) }, none⟩
  | none =>
      if toEnable = isEnabled then
        ⟨persisted, some ⟨.srExists, "Module feature is already in the requested state."⟩⟩
      else
        let newMods :=
          if (findModule persisted modName).isSome then
            persisted.modules.map (fun m =>
              if m.name = modName then
                { m with changedFeatures := m.changedFeatures ++ [⟨featName, toEnable⟩] }
              else m)
          else
            persisted.modules ++
              [{ emptySrModule modName with changedFeatures := [⟨featName, toEnable⟩] }]
        ⟨{ persisted with modules := newMods }, none⟩

/-! ## The candidate schema universe and its collaborators -/

/-- A module as present in a libyang context: name, revision,
implemented flag and enabled features. -/
structure CtxMod where
  name : String
  revision : Option String
  implemented : Bool
  features : List String
deriving DecidableEq, Repr

/-- A schema universe (`ly_ctx`): the loaded modules. -/
abbrev LyCtx := List CtxMod

/-- Module lookup by name. -/
def ctxFind (ctx : LyCtx) (n : String) : Option CtxMod :=
  ctx.find? (fun m => m.name = n)

/-- `ly_ctx_get_module_implemented`. -/
def ctxFindImpl (ctx : LyCtx) (n : String) : Option CtxMod :=
  ctx.find? (fun m => m.name = n && m.implemented)

/-- `ly_ctx_get_module` with exact revision matching (`NULL` matches a
module without revision). -/
def ctxGetModule (ctx : LyCtx) (n : String) (rev : Option String) : Option CtxMod :=
  ctx.find? (fun m => m.name = n && m.revision = rev)

/-- Put a module into a context, replacing a same-named one. -/
def ctxUpsert (ctx : LyCtx) (cm : CtxMod) : LyCtx :=
  if (ctxFind ctx cm.name).isSome then
    ctx.map (fun m => if m.name = cm.name then cm else m)
  else
    ctx ++ [cm]

/-- Fold `ctxUpsert` over several modules. -/
def ctxUpsertAll (ctx : LyCtx) (cms : List CtxMod) : LyCtx :=
  cms.foldl ctxUpsert ctx

/-- `lys_feature_enable_force` on the named context module. -/
def ctxEnableFeature (ctx : LyCtx) (n feat : String) : LyCtx :=
  ctx.map (fun m =>
    if m.name = n then
      { m with features := if feat ∈ m.features then m.features else m.features ++ [feat] }
    else m)

/-- Enable several features on the named context module. -/
def ctxEnableFeatures (ctx : LyCtx) (n : String) (feats : List String) : LyCtx :=
  feats.foldl (fun c f => ctxEnableFeature c n f) ctx

/-- `lys_feature_disable_force` on the named context module. -/
def ctxDisableFeature (ctx : LyCtx) (n feat : String) : LyCtx :=
  ctx.map (fun m =>
    if m.name = n then { m with features := m.features.filter (fun f => f != feat) }
    else m)

/-- The external schema engine and data storage consumed by the apply
pipeline, modelled at its interface. -/
structure Collab where
  /-- `lys_parse_mem`: schema text to the resulting module; `none` is a
  parse failure. -/
  parseModule : String → Option CtxMod
  /-- additional modules pulled into the context by a successful parse
  (imports of the parsed text). -/
  parseExtra : String → List CtxMod
  /-- `ly_ctx_load_module` by name and revision; `none` is a load
  failure. -/
  loadModule : String → Option String → Option CtxMod
  /-- additional modules pulled into the context by a load. -/
  loadExtra : String → Option String → List CtxMod
  /-- the dependency modules `sr_lydmods_check_deps_r` collects from the
  compiled module of this name. -/
  moduleDeps : String → List String
  /-- parsed import names of the named module. -/
  importsOf : String → List String
  /-- whether the old startup data re-parses under the candidate
  context. -/
  startupParseOk : Bool
  /-- whether the old running data re-parses under the candidate
  context. -/
  runningParseOk : Bool
  /-- whether the merged startup and running trees fully validate under
  the candidate context. -/
  validateOk : Bool
  /-- the module (with its implemented-import closure, in insertion
  order) materialized by `sr_lydmods_add_module_with_imps_r`. -/
  installClosure : String → List CtxMod
  /-- rebuilt per-module dependency data (`sr_lydmods_add_all_deps`). -/
  rebuiltDeps : String → List DepFact × List OpRec × List String

/-- Fatal (internal) errors: propagated immediately, no store happens. -/
inductive SrFatal where
  | internalErr
deriving DecidableEq, Repr

/-- Writes and removals of per-module data files performed by the
pipeline. -/
inductive FileOp where
  | writeStartup (module : String)
  | writeRunning (module : String)
  | removeDataFiles (module : String)
  | createStartup (module : String)
deriving DecidableEq, Repr

/-! ## Apply phases -/

/-- The dependency check of `sr_lydmods_check_all_deps`: a dependency
module that is neither implemented in the candidate context nor staged
for installation sets `fail`. -/
def checkAllDepsFail (o : Collab) (ctx : LyCtx) (st : SrMods) (modName : String) : Bool :=
  (o.moduleDeps modName).any (fun d =>
    !(ctxFindImpl ctx d).isSome && !(stagedExists st d))

/-- Loop body of `sr_lydmods_sched_ctx_update_modules`: load every
module carrying an `updated-yang` marker from its replacement text
(parse failure is fatal), enable its stored features, check its
dependencies (first unmet dependency sets `fail` and stops), and mark
`change`. -/
def updLoop (o : Collab) (st : SrMods) (ctx : LyCtx) (change : Bool) :
    List SrModule → Except SrFatal (LyCtx × Bool × Bool)
  | [] => .ok (ctx, change, false)
  | m :: rest =>
      match m.updatedYang with
      | none => updLoop o st ctx change rest
      | some y =>
          match o.parseModule y with
          | none => .error .internalErr
          | some cm =>
              let ctx1 := ctxUpsertAll (ctxUpsert ctx cm) (o.parseExtra y)
              let ctx2 := ctxEnableFeatures ctx1 cm.name m.enabledFeatures
              if checkAllDepsFail o ctx2 st cm.name then .ok (ctx2, change, true)
              else updLoop o st ctx2 true rest

/-- `sr_lydmods_sched_ctx_update_modules`. -/
def sr_lydmods_sched_ctx_update_modules (o : Collab) (st : SrMods) (ctx : LyCtx) :
    Except SrFatal (LyCtx × Bool × Bool) :=
  updLoop o st ctx false st.modules

/-- `sr_lydmods_ctx_load_module`: reuse an implemented module of the
right name/revision, otherwise load it (failure is fatal), then enable
all the record's stored features. -/
def sr_lydmods_ctx_load_module (o : Collab) (ctx : LyCtx) (m : SrModule) :
    Except SrFatal LyCtx :=
  let existing := ctxGetModule ctx m.name m.revision
  let needLoad :=
    match existing with
    | some cm => !cm.implemented
    | none => true
  if needLoad then
    match o.loadModule m.name m.revision with
    | none => .error .internalErr
    | some cm =>
        .ok (ctxEnableFeatures (ctxUpsertAll (ctxUpsert ctx cm) (o.loadExtra m.name m.revision))
          m.name m.enabledFeatures)
  else
    .ok (ctxEnableFeatures ctx m.name m.enabledFeatures)

/-- Loop body of `sr_lydmods_ctx_load_modules` with
`removed = updated = 0`: a module carrying a `removed` or
`updated-yang` marker is skipped and marks `change`; every other module
record is loaded into the context. -/
def loadLoop (o : Collab) (ctx : LyCtx) (change : Bool) :
    List SrModule → Except SrFatal (LyCtx × Bool)
  | [] => .ok (ctx, change)
  | m :: rest =>
      if m.removed || m.updatedYang.isSome then
        loadLoop o ctx true rest
      else
        match sr_lydmods_ctx_load_module o ctx m with
        | .error e => .error e
        | .ok ctx1 => loadLoop o ctx1 change rest

/-- Whether some implemented context module other than `n` imports `n`
and has an unmet dependency (the importer re-check in
`sr_lydmods_sched_ctx_change_features`). -/
def importersFail (o : Collab) (ctx : LyCtx) (st : SrMods) (n : String) : Bool :=
  ctx.any (fun im =>
    im.implemented && im.name != n && (o.importsOf im.name).contains n &&
      checkAllDepsFail o ctx st im.name)

/-- Apply one module's `changed-feature` markers to its context module. -/
def applyFeatChanges (ctx : LyCtx) (n : String) (cfs : List ChangedFeat) : LyCtx :=
  cfs.foldl (fun c cf =>
    if cf.enable then ctxEnableFeature c n cf.name else ctxDisableFeature c n cf.name) ctx

/-- Loop body of `sr_lydmods_sched_ctx_change_features`: modules with no
`changed-feature` markers are skipped; a marked module that is not
implemented in the candidate context (it is also scheduled for removal)
is skipped with a logged warning, touching neither the context nor the
flags; otherwise the changes are applied, the module's dependencies and
its importers' dependencies are checked (`fail` stops the phase), and
`change` is set. -/
def featLoop (o : Collab) (st : SrMods) (ctx : LyCtx) (change : Bool) :
    List SrModule → LyCtx × Bool × Bool
  | [] => (ctx, change, false)
  | m :: rest =>
      if m.changedFeatures.isEmpty then
        featLoop o st ctx change rest
      else
        match ctxFindImpl ctx m.name with
        | none => featLoop o st ctx change rest
        | some _ =>
            let ctx1 := applyFeatChanges ctx m.name m.changedFeatures
            if checkAllDepsFail o ctx1 st m.name then (ctx1, change, true)
            else if importersFail o ctx1 st m.name then (ctx1, change, true)
            else featLoop o st ctx1 true rest

/-- `sr_lydmods_sched_ctx_change_features`. -/
def sr_lydmods_sched_ctx_change_features (o : Collab) (st : SrMods) (ctx : LyCtx) :
    LyCtx × Bool × Bool :=
  featLoop o st ctx false st.modules

/-- Loop body of `sr_lydmods_sched_ctx_install_modules`: parse every
staged entry's schema text (a parse failure is the recoverable `fail`),
enable its requested features, check its dependencies, mark `change`. -/
def instLoop (o : Collab) (st : SrMods) (ctx : LyCtx) (change : Bool) :
    List InstalledMod → LyCtx × Bool × Bool
  | [] => (ctx, change, false)
  | im :: rest =>
      match o.parseModule im.moduleYang with
      | none => (ctx, change, true)
      | some cm =>
          let ctx1 := ctxUpsertAll (ctxUpsert ctx cm) (o.parseExtra im.moduleYang)
          let ctx2 := ctxEnableFeatures ctx1 cm.name im.enabledFeatures
          if checkAllDepsFail o ctx2 st cm.name then (ctx2, change, true)
          else instLoop o st ctx2 true rest

/-- `sr_lydmods_sched_ctx_install_modules`. -/
def sr_lydmods_sched_ctx_install_modules (o : Collab) (st : SrMods) (ctx : LyCtx) :
    LyCtx × Bool × Bool :=
  instLoop o st ctx false st.installed

/-- The per-module condition of
`sr_lydmods_sched_check_removed_modules`: a module marked removed whose
name (and recorded revision) is still implemented in the candidate
context. -/
def removedStillImplemented (ctx : LyCtx) (m : SrModule) : Bool :=
  m.removed &&
    (match ctxGetModule ctx m.name m.revision with
     | some cm => cm.implemented
     | none => false)

/-- `sr_lydmods_sched_check_removed_modules`: `fail` when some removed
module is still implemented in the candidate context. -/
def sr_lydmods_sched_check_removed_modules (st : SrMods) (ctx : LyCtx) : Bool :=
  st.modules.any (fun m => removedStillImplemented ctx m)

/-- The modules whose startup and running files are rewritten on
success in `sr_lydmods_sched_update_data`: the old context's implemented
modules that survive into the candidate context, plus staged entries
carrying seed data. -/
def updateDataWriteSet (st : SrMods) (ctx : LyCtx) : List String :=
  (st.modules.filter (fun m => (ctxFindImpl ctx m.name).isSome)).map (fun m => m.name) ++
    (st.installed.filter (fun im => !im.dataPayloads.isEmpty)).map (fun im => im.name)

/-- `sr_lydmods_sched_update_data`: serialize all persisted startup and
running data under the unmodified (old) universe, re-parse it under the
candidate universe, merge staged seed data, fully validate; any parse
or validation failure sets `fail` before anything is written; only on
success is the re-validated data written back to each affected module's
startup and running files. -/
def sr_lydmods_sched_update_data (o : Collab) (st : SrMods) (ctx : LyCtx) :
    Bool × List FileOp :=
  if !o.startupParseOk then (true, [])
  else if !o.runningParseOk then (true, [])
  else if !o.validateOk then (true, [])
  else
    (false,
      (updateDataWriteSet st ctx).map FileOp.writeStartup ++
        (updateDataWriteSet st ctx).map FileOp.writeRunning)

/-! ## Commit (finalize) phase -/

/-- `sr_lydmods_add_module_with_imps_r` during commit: add a fresh
record (no markers, no deps) for the module and each implemented member
of its import closure not already present, creating its startup file. -/
def addModuleWithImps (o : Collab) (acc : SrMods × List FileOp) (n : String) :
    SrMods × List FileOp :=
  (o.installClosure n).foldl
    (fun (a : SrMods × List FileOp) cm =>
      if cm.implemented && !(findModule a.1 cm.name).isSome then
        ({ a.1 with modules := a.1.modules ++
            [{ emptySrModule cm.name with
                revision := cm.revision, enabledFeatures := cm.features }] },
          a.2 ++ [.createStartup cm.name])
      else a)
    acc

/-- Fold a module's `changed-feature` markers into its enabled-feature
set (`sr_lydmods_sched_finalize_module_change_features`). -/
def applyChangedFeats (feats : List String) (cfs : List ChangedFeat) : List String :=
  cfs.foldl (fun fs cf =>
    if cf.enable then (if cf.name ∈ fs then fs else fs ++ [cf.name])
    else fs.filter (fun f => f != cf.name)) feats

/-- One module record in the commit pass of `sr_lydmods_sched_apply`:
a removed module's record is dropped and its data files deleted; an
updated module is re-inserted fresh through the install path; feature
markers are folded into the enabled-feature set; stored dependency data
is dropped everywhere (it is rebuilt afterwards). -/
def finalizeModStep (o : Collab) (acc : SrMods × List FileOp) (m : SrModule) :
    SrMods × List FileOp :=
  if m.removed then
    (acc.1, acc.2 ++ [.removeDataFiles m.name])
  else if m.updatedYang.isSome then
    addModuleWithImps o acc m.name
  else if !m.changedFeatures.isEmpty then
    let feats := applyChangedFeats m.enabledFeatures m.changedFeatures
    let m1 := { m with
      enabledFeatures := feats
      changedFeatures := ([] : List ChangedFeat)
      dataDeps := ([] : List DepFact)
      opDeps := ([] : List OpRec)
      inverseDeps := ([] : List String) }
    ({ acc.1 with modules := acc.1.modules ++ [m1] }, acc.2)
  else
    let m1 := { m with
      dataDeps := ([] : List DepFact)
      opDeps := ([] : List OpRec)
      inverseDeps := ([] : List String) }
    ({ acc.1 with modules := acc.1.modules ++ [m1] }, acc.2)

/-- The staged-entry pass of the commit
(`sr_lydmods_sched_finalize_module_install`): an entry imported (as an
implemented import) by a later staged entry is dropped here and pulled
in as that entry's dependency; every other entry is promoted through
the install path. -/
def promoteStaged (o : Collab) (ctx : LyCtx) (acc : SrMods × List FileOp) :
    List InstalledMod → SrMods × List FileOp
  | [] => acc
  | im :: rest =>
      if rest.any (fun jm => (o.importsOf jm.name).contains im.name) &&
          (ctxFindImpl ctx im.name).isSome then
        promoteStaged o ctx acc rest
      else
        promoteStaged o ctx (addModuleWithImps o acc im.name) rest

/-- Rebuild all per-module dependency data from scratch
(`sr_lydmods_add_all_deps` over every surviving record). -/
def rebuildAllDeps (o : Collab) (st : SrMods) : SrMods :=
  { st with modules := st.modules.map (fun m =>
      let rd := o.rebuiltDeps m.name
      { m with dataDeps := rd.1, opDeps := rd.2.1, inverseDeps := rd.2.2 }) }

/-- The whole commit phase: module pass, staged pass, dependency
rebuild.  No staged entry survives. -/
def sr_lydmods_sched_finalize (o : Collab) (st : SrMods) (ctx : LyCtx) :
    SrMods × List FileOp :=
  let step1 := st.modules.foldl (finalizeModStep o) (⟨[], []⟩, [])
  let step2 := promoteStaged o ctx step1 st.installed
  (rebuildAllDeps o step2.1, step2.2)

/-! ## The apply pipeline -/

/-- Phases 1 of `sr_lydmods_sched_apply` (candidate universe
construction): updated modules, remaining modules, feature changes,
staged installs, in that order, stopping at the first phase that sets
`fail`. -/
def buildCandidate (o : Collab) (st : SrMods) : Except SrFatal (LyCtx × Bool × Bool) :=
  match sr_lydmods_sched_ctx_update_modules o st [] with
  | .error e => .error e
  | .ok (ctx1, c1, f1) =>
      if f1 then .ok (ctx1, c1, true)
      else
        match loadLoop o ctx1 false st.modules with
        | .error e => .error e
        | .ok (ctx2, c2) =>
            match sr_lydmods_sched_ctx_change_features o st ctx2 with
            | (ctx3, c3, f3) =>
                if f3 then .ok (ctx3, c1 || c2 || c3, true)
                else
                  match sr_lydmods_sched_ctx_install_modules o st ctx3 with
                  | (ctx4, c4, f4) => .ok (ctx4, c1 || c2 || c3 || c4, f4)

/-- Result of `sr_lydmods_sched_apply`: the in-memory registry after
the call, the reported `change` and `fail` flags, and the data-file
operations performed. -/
structure ApplyResult where
  mods : SrMods
  change : Bool
  fail : Bool
  writes : List FileOp
deriving DecidableEq, Repr

/-- `sr_lydmods_sched_apply`: build the candidate universe (the
registry is not modified); if anything changed, check removals, check
and rewrite the persisted data, and only then run the commit pass over
the registry; on `fail` the reported `change` is forced to 0, the
registry is left exactly as it was, and no data file was written. -/
def sr_lydmods_sched_apply (o : Collab) (st : SrMods) : Except SrFatal ApplyResult :=
  match buildCandidate o st with
  | .error e => .error e
  | .ok (ctx, change, fail) =>
      if fail then .ok ⟨st, false, true, []⟩
      else if change then
        if sr_lydmods_sched_check_removed_modules st ctx then .ok ⟨st, false, true, []⟩
        else
          match sr_lydmods_sched_update_data o st ctx with
          | (dfail, writes) =>
              if dfail then .ok ⟨st, false, true, []⟩
              else
                match sr_lydmods_sched_finalize o st ctx with
                | (st1, w2) => .ok ⟨st1, true, false, writes ++ w2⟩
      else .ok ⟨st, false, false, []⟩



/-! # Theorems -/

/-! ## Supporting lemmas for the dedup structure -/

theorem depKeyMatches_refl (f : DepFact) : depKeyMatches f f = true := by
  cases f <;> simp [depKeyMatches]

theorem depHasKey_moddep_add (deps : List DepFact) (f g : DepFact) :
    depHasKey (sr_lydmods_moddep_add deps g) f =
      (depHasKey deps f || (!depHasKey deps g && depKeyMatches f g)) := by
  by_cases h : depHasKey deps g
  · simp [sr_lydmods_moddep_add, h]
  · have hstep : sr_lydmods_moddep_add deps g = deps ++ [g] := by
      simp [sr_lydmods_moddep_add, h]
    simp only [Bool.not_eq_true] at h
    rw [hstep]
    simp only [depHasKey, List.any_append, List.any_cons, List.any_nil, Bool.or_false]
    rw [show (deps.any fun x => depKeyMatches g x) = false from h]
    simp

theorem depHasKey_addAll (deps : List DepFact) (fs : List DepFact) (f : DepFact) :
    depHasKey deps f = true → depHasKey (moddepAddAll deps fs) f = true := by
  induction fs generalizing deps with
  | nil => intro h; simpa [moddepAddAll] using h
  | cons g gs ih =>
      intro h
      have h2 : depHasKey (sr_lydmods_moddep_add deps g) f = true := by
        rw [depHasKey_moddep_add]; simp [h]
      simpa [moddepAddAll] using ih (sr_lydmods_moddep_add deps g) h2

theorem depHasKey_addAll_mem (deps : List DepFact) (fs : List DepFact) (f : DepFact)
    (hf : f ∈ fs) : depHasKey (moddepAddAll deps fs) f = true := by
  induction fs generalizing deps with
  | nil => cases hf
  | cons g gs ih =>
      rcases List.mem_cons.mp hf with hf1 | hf2
      · subst hf1
        by_cases h : depHasKey deps f
        · exact depHasKey_addAll _ _ _ h
        · have h2 : depHasKey (sr_lydmods_moddep_add deps f) f = true := by
            rw [depHasKey_moddep_add]; simp [h, depKeyMatches_refl]
          simpa [moddepAddAll] using depHasKey_addAll (sr_lydmods_moddep_add deps f) gs f h2
      · simpa [moddepAddAll] using ih (sr_lydmods_moddep_add deps g) hf2

theorem moddepAddAll_of_allPresent (deps : List DepFact) (fs : List DepFact)
    (h : ∀ f ∈ fs, depHasKey deps f = true) : moddepAddAll deps fs = deps := by
  induction fs with
  | nil => rfl
  | cons g gs ih =>
      have hg : depHasKey deps g = true := h g (List.mem_cons_self _ _)
      have hstep : sr_lydmods_moddep_add deps g = deps := by
        unfold sr_lydmods_moddep_add; simp [hg]
      calc moddepAddAll deps (g :: gs)
          = moddepAddAll (sr_lydmods_moddep_add deps g) gs := rfl
        _ = moddepAddAll deps gs := by rw [hstep]
        _ = deps := ih (fun f hf => h f (List.mem_cons_of_mem _ hf))

/-! ## Lemmas on the foreign-ness walk -/

theorem srWalkUp_eq_top_iff (atom top : SNode) :
    srWalkUp atom top = top ↔ top ∈ atom.ancestors := by
  induction atom with
  | root n k m => simp [srWalkUp, SNode.ancestors, eq_comm]
  | child n k m p ih =>
      by_cases h : SNode.child n k m p = top
      · simp [srWalkUp, h, SNode.ancestors]
      · have h2 : top ≠ SNode.child n k m p := fun hh => h hh.symm
        simp [srWalkUp, h, SNode.ancestors, ih, h2]

theorem srWalkUp_of_not_mem (atom top : SNode) (h : top ∉ atom.ancestors) :
    srWalkUp atom top = atom.topAnc := by
  induction atom with
  | root n k m => rfl
  | child n k m p ih =>
      have h1 : SNode.child n k m p ≠ top := by
        intro hh
        apply h
        rw [← hh]
        simp [SNode.ancestors]
      have h2 : top ∉ p.ancestors := by
        intro hh
        exact h (List.mem_cons_of_mem _ hh)
      simp [srWalkUp, h1, SNode.topAnc, ih h2]

theorem topAnc_mem_ancestors (atom : SNode) : atom.topAnc ∈ atom.ancestors := by
  induction atom with
  | root n k m => simp [SNode.topAnc, SNode.ancestors]
  | child n k m p ih =>
      simp only [SNode.topAnc, SNode.ancestors]
      exact List.mem_cons_of_mem _ ih

theorem topAnc_of_root_mem (atom top : SNode) (hroot : top.isRoot = true)
    (hmem : top ∈ atom.ancestors) : atom.topAnc = top := by
  induction atom with
  | root n k m =>
      simp only [SNode.ancestors, List.mem_singleton] at hmem
      simp [SNode.topAnc, hmem.symm]
  | child n k m p ih =>
      rcases List.mem_cons.mp hmem with h1 | h2
      · rw [h1] at hroot
        simp [SNode.isRoot] at hroot
      · exact ih h2

/-! ## Lemmas on dep-mod accumulation -/

theorem mem_getDepMods (top : SNode) (atoms : List SNode) (acc : List String)
    (m : String) :
    m ∈ sr_lydmods_moddep_expr_get_dep_mods top atoms acc ↔
      m ∈ acc ∨ ∃ a ∈ atoms, sr_lydmods_moddep_expr_atom_is_foreign a top = some m := by
  induction atoms generalizing acc with
  | nil => simp [sr_lydmods_moddep_expr_get_dep_mods]
  | cons a rest ih =>
      cases hf : sr_lydmods_moddep_expr_atom_is_foreign a top with
      | none =>
          simp only [sr_lydmods_moddep_expr_get_dep_mods, hf, ih]
          constructor
          · rintro (h | ⟨b, hb, hb2⟩)
            · exact Or.inl h
            · exact Or.inr ⟨b, List.mem_cons_of_mem _ hb, hb2⟩
          · rintro (h | ⟨b, hb, hb2⟩)
            · exact Or.inl h
            · rcases List.mem_cons.mp hb with h1 | h1
              · rw [h1] at hb2; rw [hb2] at hf; cases hf
              · exact Or.inr ⟨b, h1, hb2⟩
      | some x =>
          simp only [sr_lydmods_moddep_expr_get_dep_mods, hf, ih]
          by_cases hx : x ∈ acc
          · simp only [if_pos hx]
            constructor
            · rintro (h | ⟨b, hb, hb2⟩)
              · exact Or.inl h
              · exact Or.inr ⟨b, List.mem_cons_of_mem _ hb, hb2⟩
            · rintro (h | ⟨b, hb, hb2⟩)
              · exact Or.inl h
              · rcases List.mem_cons.mp hb with h1 | h1
                · rw [h1] at hb2; rw [hb2] at hf
                  cases hf
                  exact Or.inl hx
                · exact Or.inr ⟨b, h1, hb2⟩
          · simp only [if_neg hx]
            constructor
            · rintro (h | ⟨b, hb, hb2⟩)
              · rcases List.mem_append.mp h with h1 | h1
                · exact Or.inl h1
                · simp only [List.mem_singleton] at h1
                  exact Or.inr ⟨a, List.mem_cons_self _ _, by rw [hf, h1]⟩
              · exact Or.inr ⟨b, List.mem_cons_of_mem _ hb, hb2⟩
            · rintro (h | ⟨b, hb, hb2⟩)
              · exact Or.inl (List.mem_append.mpr (Or.inl h))
              · rcases List.mem_cons.mp hb with h1 | h1
                · rw [h1] at hb2; rw [hb2] at hf
                  cases hf
                  exact Or.inl (List.mem_append.mpr (Or.inr (List.mem_singleton.mpr rfl)))
                · exact Or.inr ⟨b, h1, hb2⟩

theorem nodup_getDepMods (top : SNode) (atoms : List SNode) (acc : List String)
    (hacc : acc.Nodup) :
    (sr_lydmods_moddep_expr_get_dep_mods top atoms acc).Nodup := by
  induction atoms generalizing acc with
  | nil => simpa [sr_lydmods_moddep_expr_get_dep_mods] using hacc
  | cons a rest ih =>
      cases hf : sr_lydmods_moddep_expr_atom_is_foreign a top with
      | none => simpa [sr_lydmods_moddep_expr_get_dep_mods, hf] using ih acc hacc
      | some x =>
          simp only [sr_lydmods_moddep_expr_get_dep_mods, hf]
          by_cases hx : x ∈ acc
          · simpa [if_pos hx] using ih acc hacc
          · have : (acc ++ [x]).Nodup := by
              simp [List.nodup_append, hacc, List.disjoint_singleton, hx]
            simpa [if_neg hx] using ih (acc ++ [x]) this

theorem mem_getDepModsAll (top : SNode) (exprAtoms : List (List SNode)) (m : String) :
    m ∈ getDepModsAll top exprAtoms ↔
      ∃ atoms ∈ exprAtoms, ∃ a ∈ atoms,
        sr_lydmods_moddep_expr_atom_is_foreign a top = some m := by
  have key : ∀ (ls : List (List SNode)) (acc : List String),
      m ∈ ls.foldl (fun acc atoms => sr_lydmods_moddep_expr_get_dep_mods top atoms acc) acc ↔
        m ∈ acc ∨ ∃ atoms ∈ ls, ∃ a ∈ atoms,
          sr_lydmods_moddep_expr_atom_is_foreign a top = some m := by
    intro ls
    induction ls with
    | nil => simp
    | cons l1 ls1 ih =>
        intro acc
        simp only [List.foldl_cons, ih, mem_getDepMods]
        constructor
        · rintro ((h | ⟨a, ha, ha2⟩) | ⟨atoms, hat, a, ha, ha2⟩)
          · exact Or.inl h
          · exact Or.inr ⟨l1, List.mem_cons_self _ _, a, ha, ha2⟩
          · exact Or.inr ⟨atoms, List.mem_cons_of_mem _ hat, a, ha, ha2⟩
        · rintro (h | ⟨atoms, hat, a, ha, ha2⟩)
          · exact Or.inl (Or.inl h)
          · rcases List.mem_cons.mp hat with h1 | h1
            · exact Or.inl (Or.inr ⟨a, by rw [← h1]; exact ha, ha2⟩)
            · exact Or.inr ⟨atoms, h1, a, ha, ha2⟩
  simpa [getDepModsAll] using key exprAtoms []

theorem nodup_getDepModsAll (top : SNode) (exprAtoms : List (List SNode)) :
    (getDepModsAll top exprAtoms).Nodup := by
  have key : ∀ (ls : List (List SNode)) (acc : List String), acc.Nodup →
      (ls.foldl (fun acc atoms => sr_lydmods_moddep_expr_get_dep_mods top atoms acc) acc).Nodup := by
    intro ls
    induction ls with
    | nil => intro acc h; simpa using h
    | cons l1 ls1 ih =>
        intro acc h
        exact ih _ (nodup_getDepMods top l1 acc h)
  exact key exprAtoms [] List.nodup_nil

theorem moddepAddRefs_fresh (ms : List String) (deps : List DepFact)
    (hnd : ms.Nodup) (hfresh : ∀ x ∈ ms, depHasKey deps (.ref x) = false) :
    moddepAddRefs deps ms = deps ++ ms.map DepFact.ref := by
  induction ms generalizing deps with
  | nil => simp [moddepAddRefs]
  | cons m rest ih =>
      have hm : depHasKey deps (.ref m) = false := hfresh m (List.mem_cons_self _ _)
      have hstep : sr_lydmods_moddep_add deps (.ref m) = deps ++ [.ref m] := by
        simp [sr_lydmods_moddep_add, hm]
      have hnd2 : rest.Nodup := hnd.of_cons
      have hmnotin : m ∉ rest := by
        intro hmem
        exact (List.nodup_cons.mp hnd).1 hmem
      have hfresh2 : ∀ x ∈ rest, depHasKey (deps ++ [.ref m]) (.ref x) = false := by
        intro x hx
        have hx1 : depHasKey deps (.ref x) = false := hfresh x (List.mem_cons_of_mem _ hx)
        have hxm : x ≠ m := fun he => hmnotin (he ▸ hx)
        simp [depHasKey, List.any_append, depKeyMatches] at hx1 ⊢
        exact ⟨hx1, hxm⟩
      calc moddepAddRefs deps (m :: rest)
          = moddepAddRefs (sr_lydmods_moddep_add deps (.ref m)) rest := rfl
        _ = moddepAddRefs (deps ++ [.ref m]) rest := by rw [hstep]
        _ = (deps ++ [.ref m]) ++ rest.map DepFact.ref := ih _ hnd2 hfresh2
        _ = deps ++ (m :: rest).map DepFact.ref := by simp

theorem refCount_moddepAddRefs_nil (ms : List String) (hnd : ms.Nodup) (m : String) :
    refCount (moddepAddRefs [] ms) m = if m ∈ ms then 1 else 0 := by
  have h0 : moddepAddRefs [] ms = ms.map DepFact.ref := by
    simpa using moddepAddRefs_fresh ms [] hnd (by intro x _; rfl)
  have hinj : Function.Injective DepFact.ref := by
    intro a b hab
    cases hab
    rfl
  rw [refCount, h0, List.count_map_of_injective ms DepFact.ref hinj m]
  by_cases hm : m ∈ ms
  · rw [if_pos hm]
    exact List.count_eq_one_of_mem hnd hm
  · rw [if_neg hm]
    exact List.count_eq_zero_of_not_mem hm

theorem mem_add_inv (invs : List String) (m x : String) :
    x ∈ sr_lydmods_add_inv_data_dep invs m ↔ x ∈ invs ∨ x = m := by
  unfold sr_lydmods_add_inv_data_dep
  by_cases h : invs.any (fun y => y = m) = true
  · have hm : m ∈ invs := by
      simp only [List.any_eq_true, decide_eq_true_eq] at h
      rcases h with ⟨y, hy, hy2⟩
      exact hy2 ▸ hy
    simp only [if_pos h]
    constructor
    · exact Or.inl
    · rintro (h1 | h1)
      · exact h1
      · exact h1 ▸ hm
  · have hm : m ∉ invs := by
      intro hmem
      apply h
      simp only [List.any_eq_true, decide_eq_true_eq]
      exact ⟨m, hmem, rfl⟩
    simp [if_neg h, hm, List.mem_append]

theorem mem_invAddAll (invs ms : List String) (x : String) :
    x ∈ invAddAll invs ms ↔ x ∈ invs ∨ x ∈ ms := by
  induction ms generalizing invs with
  | nil => simp [invAddAll]
  | cons a rest ih =>
      have hstep : invAddAll invs (a :: rest) =
          invAddAll (sr_lydmods_add_inv_data_dep invs a) rest := rfl
      rw [hstep, ih, mem_add_inv]
      simp only [List.mem_cons]
      tauto

theorem invAddAll_of_allPresent (invs ms : List String)
    (h : ∀ x ∈ ms, x ∈ invs) : invAddAll invs ms = invs := by
  induction ms with
  | nil => rfl
  | cons a rest ih =>
      have ha : a ∈ invs := h a (List.mem_cons_self _ _)
      have hany : invs.any (fun y => y = a) = true := by
        simp only [List.any_eq_true, decide_eq_true_eq]
        exact ⟨a, ha, rfl⟩
      have hstep : sr_lydmods_add_inv_data_dep invs a = invs := by
        unfold sr_lydmods_add_inv_data_dep
        simp [hany]
      calc invAddAll invs (a :: rest)
          = invAddAll (sr_lydmods_add_inv_data_dep invs a) rest := rfl
        _ = invAddAll invs rest := by rw [hstep]
        _ = invs := ih (fun x hx => h x (List.mem_cons_of_mem _ hx))

/-- C7: dependency recording is duplicate-free and idempotent: adding a
module-reference fact whose target module already appears, an
instance-identifier fact whose data path already appears, or an
inverse-dependency entry whose module name already appears leaves the
respective set unchanged, and re-running the same sequence of additions
(the extraction output of the same compiled schema) over the already
built sets reproduces them identically. -/
theorem c7_moddep_add_dedup_idempotent (deps : List DepFact) (invs : List String)
    (m xp : String) (dm : Option String) (fs : List DepFact) (ms : List String) :
    (depHasKey deps (.ref m) = true → sr_lydmods_moddep_add deps (.ref m) = deps)
    ∧ (depHasKey deps (.instid xp dm) = true →
        sr_lydmods_moddep_add deps (.instid xp dm) = deps)
    ∧ (m ∈ invs → sr_lydmods_add_inv_data_dep invs m = invs)
    ∧ moddepAddAll (moddepAddAll deps fs) fs = moddepAddAll deps fs
    ∧ invAddAll (invAddAll invs ms) ms = invAddAll invs ms := by
  refine ⟨?_, ?_, ?_, ?_, ?_⟩
  · intro h
    simp [sr_lydmods_moddep_add, h]
  · intro h
    simp [sr_lydmods_moddep_add, h]
  · intro h
    have hany : invs.any (fun y => y = m) = true := by
      simp only [List.any_eq_true, decide_eq_true_eq]
      exact ⟨m, h, rfl⟩
    unfold sr_lydmods_add_inv_data_dep
    simp [hany]
  · exact moddepAddAll_of_allPresent _ _ (fun f hf => depHasKey_addAll_mem deps fs f hf)
  · exact invAddAll_of_allPresent _ _
      (fun x hx => (mem_invAddAll invs ms x).mpr (Or.inr hx))

/-- C7 witness: the theorem applied at concrete inputs with every
hypothesis discharged. -/
theorem c7_moddep_add_dedup_idempotent_witness :
    (depHasKey [DepFact.ref "a", DepFact.instid "/a:l" none] (.ref "a") = true
      ∧ sr_lydmods_moddep_add [DepFact.ref "a", DepFact.instid "/a:l" none] (.ref "a")
          = [DepFact.ref "a", DepFact.instid "/a:l" none])
    ∧ (depHasKey [DepFact.ref "a", DepFact.instid "/a:l" none] (.instid "/a:l" (some "b")) = true
      ∧ sr_lydmods_moddep_add [DepFact.ref "a", DepFact.instid "/a:l" none]
          (.instid "/a:l" (some "b")) = [DepFact.ref "a", DepFact.instid "/a:l" none])
    ∧ ("a" ∈ ["a", "b"]
      ∧ sr_lydmods_add_inv_data_dep ["a", "b"] "a" = ["a", "b"]) := by
  refine ⟨⟨by decide, ?_⟩, ⟨by decide, ?_⟩, ⟨by decide, ?_⟩⟩
  · exact (c7_moddep_add_dedup_idempotent [DepFact.ref "a", DepFact.instid "/a:l" none]
      ["a", "b"] "a" "/a:l" (some "b") [] []).1 (by decide)
  · exact (c7_moddep_add_dedup_idempotent [DepFact.ref "a", DepFact.instid "/a:l" none]
      ["a", "b"] "a" "/a:l" (some "b") [] []).2.1 (by decide)
  · exact (c7_moddep_add_dedup_idempotent [DepFact.ref "a", DepFact.instid "/a:l" none]
      ["a", "b"] "a" "/a:l" (some "b") [] []).2.2.1 (by decide)

/-- C2: for every expression atom: when the traversal top node is an
operation (RPC/action/notification), the atom yields a module-reference
fact exactly when it lies outside the operation's own subtree,
regardless of the atom's module; when the top node is an ordinary
top-level node (the traversal root's top-level ancestor), the atom
yields a fact exactly when its own top-level ancestor's module differs
from the top node's module (so same-module augments are never foreign);
and each distinct foreign module yields exactly one `module` reference
fact per dependency set no matter how many expressions or atoms
reference it. -/
theorem c2_foreign_rule_and_dedup (top atom : SNode) (exprAtoms : List (List SNode)) :
    (top.kind.isOp = true →
      ((sr_lydmods_moddep_expr_atom_is_foreign atom top).isSome ↔ top ∉ atom.ancestors))
    ∧ (top.kind.isOp = false → top.isRoot = true →
      sr_lydmods_moddep_expr_atom_is_foreign atom top =
        (if atom.topAnc.mod = top.mod then none else some atom.topAnc.mod))
    ∧ (∀ m, m ∈ getDepModsAll top exprAtoms ↔
        ∃ atoms ∈ exprAtoms, ∃ a ∈ atoms,
          sr_lydmods_moddep_expr_atom_is_foreign a top = some m)
    ∧ (∀ m, refCount (moddepAddRefs [] (getDepModsAll top exprAtoms)) m =
        if m ∈ getDepModsAll top exprAtoms then 1 else 0) := by
  refine ⟨?_, ?_, ?_, ?_⟩
  · intro hop
    by_cases hmem : top ∈ atom.ancestors
    · have hw : srWalkUp atom top = top := (srWalkUp_eq_top_iff atom top).mpr hmem
      simp [sr_lydmods_moddep_expr_atom_is_foreign, hw, hmem]
    · have hw : srWalkUp atom top ≠ top := fun hh =>
        hmem ((srWalkUp_eq_top_iff atom top).mp hh)
      simp [sr_lydmods_moddep_expr_atom_is_foreign, hw, hop, hmem]
  · intro hop hroot
    by_cases hmem : top ∈ atom.ancestors
    · have hw : srWalkUp atom top = top := (srWalkUp_eq_top_iff atom top).mpr hmem
      have hta : atom.topAnc = top := topAnc_of_root_mem atom top hroot hmem
      simp [sr_lydmods_moddep_expr_atom_is_foreign, hw, hta]
    · have hw : srWalkUp atom top = atom.topAnc := srWalkUp_of_not_mem atom top hmem
      have hne : atom.topAnc ≠ top := by
        intro hh
        exact hmem (hh ▸ topAnc_mem_ancestors atom)
      by_cases hm2 : atom.topAnc.mod = top.mod
      · simp [sr_lydmods_moddep_expr_atom_is_foreign, hw, hne, hop, hm2]
      · simp [sr_lydmods_moddep_expr_atom_is_foreign, hw, hne, hop, hm2]
  · intro m
    exact mem_getDepModsAll top exprAtoms m
  · intro m
    exact refCount_moddepAddRefs_nil _ (nodup_getDepModsAll top exprAtoms) m

/-- C2 witness: the foreign-ness rule applied to a concrete notification
top node with an atom outside its subtree, and to a concrete
data top node with a same-module atom reached through a different-module
path (an augment-style chain), with every hypothesis discharged. -/
theorem c2_foreign_rule_and_dedup_witness :
    ((sr_lydmods_moddep_expr_atom_is_foreign
        (SNode.child "x" .leaf "b" (SNode.root "c" .container "b"))
        (SNode.root "nt" .notif "a")).isSome ↔
      SNode.root "nt" .notif "a" ∉
        (SNode.child "x" .leaf "b" (SNode.root "c" .container "b")).ancestors)
    ∧ (sr_lydmods_moddep_expr_atom_is_foreign
        (SNode.child "y" .leaf "b" (SNode.root "c" .container "a"))
        (SNode.root "c" .container "a") =
      (if (SNode.child "y" .leaf "b" (SNode.root "c" .container "a")).topAnc.mod =
          (SNode.root "c" .container "a").mod then none
        else some (SNode.child "y" .leaf "b" (SNode.root "c" .container "a")).topAnc.mod)) := by
  refine ⟨?_, ?_⟩
  · exact (c2_foreign_rule_and_dedup (SNode.root "nt" .notif "a")
      (SNode.child "x" .leaf "b" (SNode.root "c" .container "b")) []).1 (by decide)
  · exact (c2_foreign_rule_and_dedup (SNode.root "c" .container "a")
      (SNode.child "y" .leaf "b" (SNode.root "c" .container "a")) []).2.1
      (by decide) (by decide)

/-- C3 evaluation at the failing input: for `c3DemoAct` (input must
referencing module `mi`, output must referencing module `mo`) the
operation-dependency record computed by `srAddOpDeps` contains neither
side's own must constraints, because the root-musts branch of
`sr_lydmods_add_data_deps_r` only fires when the operation node itself
is the traversal root; and when the operation node is the traversal
root, the `output=0` (input) traversal collects the OUTPUT musts and the
`output=1` (output) traversal collects the INPUT musts, the opposite of
each side's own constraints. -/
theorem c3_op_deps_musts_swapped_eval :
    srAddOpDeps [] c3DemoAct = [⟨"act", [], []⟩]
    ∧ (srDepsNode false true ⟨[], []⟩ c3DemoAct).deps = [DepFact.ref "mo"]
    ∧ (srDepsNode true true ⟨[], []⟩ c3DemoAct).deps = [DepFact.ref "mi"] := by
  refine ⟨?_, ?_, ?_⟩ <;>
    simp [c3DemoAct, plainLeaf, srAddOpDeps, srDepsNode, srDepsList,
      dedupAccumAll, dedupAccum, moddepAddRefs, moddepAddAll,
      sr_lydmods_moddep_add, depHasKey, depKeyMatches]

/-! ## Schedule-manager theorems -/

theorem find?_map_update (l : List InstalledMod) (nm : String)
    (f : InstalledMod → InstalledMod) (hpres : ∀ e, (f e).name = e.name)
    (im : InstalledMod) (h : l.find? (fun e => e.name = nm) = some im) :
    (l.map (fun e => if e.name = nm then f e else e)).find? (fun e => e.name = nm)
      = some (f im) := by
  induction l with
  | nil => cases h
  | cons a rest ih =>
      by_cases ha : a.name = nm
      · rw [List.find?_cons_of_pos _ (by simpa using ha)] at h
        have him : a = im := Option.some.inj h
        simp only [List.map_cons, if_pos ha]
        rw [List.find?_cons_of_pos _ (by simp [hpres a, ha])]
        rw [him]
      · rw [List.find?_cons_of_neg _ (by simpa using ha)] at h
        simp only [List.map_cons, if_neg ha]
        rw [List.find?_cons_of_neg _ (by simpa using ha)]
        exact ih h

/-- C5: scheduling installation of a module with an existing
staged-install entry fails with the exists-kind "already scheduled"
error and adds nothing, and unscheduling installation of a module with
no staged-install entry fails with the not-found-kind "not scheduled"
error; in both failure cases the persisted registry is returned
unchanged (no store happens). -/
theorem c5_sched_install_negative (persisted : SrMods) (lyMod : LyModInfo)
    (features : List String) (nm : String) :
    (stagedExists persisted lyMod.name = true →
      sr_lydmods_deferred_add_module persisted lyMod features =
        ⟨persisted, some ⟨.srExists, "Module already scheduled for installation."⟩⟩)
    ∧ (stagedExists persisted nm = false →
      sr_lydmods_unsched_add_module persisted nm =
        ⟨persisted, some ⟨.srNotFound, "Module not scheduled for installation."⟩⟩) := by
  constructor
  · intro h
    simp [sr_lydmods_deferred_add_module, h]
  · intro h
    simp [sr_lydmods_unsched_add_module, h]

/-- C5 witness: a registry with module `x` staged rejects a second
install scheduling, and an empty registry rejects unscheduling. -/
theorem c5_sched_install_negative_witness :
    (stagedExists ⟨[], [⟨"x", none, [], "module x {}", []⟩]⟩ "x" = true
      ∧ sr_lydmods_deferred_add_module ⟨[], [⟨"x", none, [], "module x {}", []⟩]⟩
          ⟨"x", none, "module x {}"⟩ [] =
        ⟨⟨[], [⟨"x", none, [], "module x {}", []⟩]⟩,
          some ⟨.srExists, "Module already scheduled for installation."⟩⟩)
    ∧ (stagedExists ⟨[], []⟩ "x" = false
      ∧ sr_lydmods_unsched_add_module ⟨[], []⟩ "x" =
        ⟨⟨[], []⟩, some ⟨.srNotFound, "Module not scheduled for installation."⟩⟩) := by
  refine ⟨⟨by decide, ?_⟩, ⟨by decide, ?_⟩⟩
  · exact (c5_sched_install_negative ⟨[], [⟨"x", none, [], "module x {}", []⟩]⟩
      ⟨"x", none, "module x {}"⟩ [] "x").1 (by decide)
  · exact (c5_sched_install_negative ⟨[], []⟩ ⟨"x", none, "module x {}"⟩ [] "x").2 (by decide)

/-- C6 evaluation at the failing input: on an empty registry, attaching
seed data for a module that is not scheduled reports the EXISTS error
kind (with a "not scheduled" message), while unscheduling an update and
unscheduling a removal report the NOT_FOUND kind, so the two conditions
are not distinguishable by error kind at the seed-data entry point. -/
theorem c6_error_kind_eval :
    (sr_lydmods_deferred_add_module_data ⟨[], []⟩ "x" "d1"
        = .error ⟨.srExists, "Module not scheduled for installation."⟩)
    ∧ ((sr_lydmods_unsched_upd_module ⟨[], []⟩ "x").err
        = some ⟨.srNotFound, "Module not scheduled for an update."⟩)
    ∧ ((sr_lydmods_unsched_del_module_with_imps ⟨[], []⟩ (.mk "x" true [])).err
        = some ⟨.srNotFound, "Module not scheduled for deletion."⟩) := by
  refine ⟨?_, ?_, ?_⟩
  · simp [sr_lydmods_deferred_add_module_data, stagedExists, findInstalled]
  · simp [sr_lydmods_unsched_upd_module, findModule]
  · simp [sr_lydmods_unsched_del_module_with_imps, sr_lydmods_unsched_del_module_r,
      findModule]

/-- C9: a feature change that matches an already-scheduled change for
the same feature is rejected with an exists-kind error, and, when no
change is scheduled for the feature, a change that matches the
feature's current state is rejected with an exists-kind error; in both
failure cases the persisted registry is returned unchanged. -/
theorem c9_change_feature_negative (persisted : SrMods) (modName featName : String)
    (toEnable isEnabled : Bool) :
    (findChangedFeat persisted modName featName = some toEnable →
      sr_lydmods_deferred_change_feature persisted modName featName toEnable isEnabled =
        ⟨persisted, some ⟨.srExists, "Module feature already scheduled to be changed."⟩⟩)
    ∧ (findChangedFeat persisted modName featName = none → toEnable = isEnabled →
      sr_lydmods_deferred_change_feature persisted modName featName toEnable isEnabled =
        ⟨persisted, some ⟨.srExists, "Module feature is already in the requested state."⟩⟩) := by
  constructor
  · intro h
    simp [sr_lydmods_deferred_change_feature, h]
  · intro h h2
    simp [sr_lydmods_deferred_change_feature, h, h2]

/-- C9 witness: a registry with feature `f` of module `m` scheduled to
be enabled rejects scheduling enable again; an empty registry rejects
enabling a feature that is already enabled. -/
theorem c9_change_feature_negative_witness :
    (findChangedFeat ⟨[{ emptySrModule "m" with changedFeatures := [⟨"f", true⟩] }], []⟩
        "m" "f" = some true
      ∧ sr_lydmods_deferred_change_feature
          ⟨[{ emptySrModule "m" with changedFeatures := [⟨"f", true⟩] }], []⟩
          "m" "f" true false =
        ⟨⟨[{ emptySrModule "m" with changedFeatures := [⟨"f", true⟩] }], []⟩,
          some ⟨.srExists, "Module feature already scheduled to be changed."⟩⟩)
    ∧ (findChangedFeat ⟨[], []⟩ "m" "f" = none
      ∧ sr_lydmods_deferred_change_feature ⟨[], []⟩ "m" "f" true true =
        ⟨⟨[], []⟩, some ⟨.srExists, "Module feature is already in the requested state."⟩⟩) := by
  refine ⟨⟨by decide, ?_⟩, ⟨by decide, ?_⟩⟩
  · exact (c9_change_feature_negative
      ⟨[{ emptySrModule "m" with changedFeatures := [⟨"f", true⟩] }], []⟩
      "m" "f" true false).1 (by decide)
  · exact (c9_change_feature_negative ⟨[], []⟩ "m" "f" true true).2 (by decide) rfl

/-- C10: attaching seed data to an existing staged-install entry
succeeds and replaces any previously attached payload: afterwards the
entry holds exactly one `data` payload, the serialization of the newest
data (last-write-wins). -/
theorem c10_add_module_data_replaces (st : SrMods) (nm dataJson : String)
    (im : InstalledMod) (h1 : findInstalled st nm = some im)
    (h2 : im.dataPayloads.length ≤ 1) :
    sr_lydmods_deferred_add_module_data st nm dataJson =
      .ok { st with installed := st.installed.map (fun e =>
        if e.name = nm then
          { e with dataPayloads := removeFirstPayload e.dataPayloads ++ [dataJson] }
        else e) }
    ∧ findInstalled
        { st with installed := st.installed.map (fun e =>
          if e.name = nm then
            { e with dataPayloads := removeFirstPayload e.dataPayloads ++ [dataJson] }
          else e) } nm = some { im with dataPayloads := [dataJson] } := by
  have hex : stagedExists st nm = true := by
    simp [stagedExists, h1]
  constructor
  · simp [sr_lydmods_deferred_add_module_data, hex]
  · have hfind := find?_map_update st.installed nm
      (fun e => { e with dataPayloads := removeFirstPayload e.dataPayloads ++ [dataJson] })
      (fun e => rfl) im h1
    have hpay : removeFirstPayload im.dataPayloads ++ [dataJson] = [dataJson] := by
      cases hl : im.dataPayloads with
      | nil => simp [removeFirstPayload]
      | cons a rest =>
          cases rest with
          | nil => simp [removeFirstPayload]
          | cons b r2 =>
              rw [hl] at h2
              simp at h2
    simp only [findInstalled] at hfind ⊢
    rw [hfind]
    congr 1
    cases im
    simp [hpay]

/-- C10 witness: the theorem applied to a registry whose staged entry
for `x` already holds one payload. -/
theorem c10_add_module_data_replaces_witness :
    findInstalled ⟨[], [⟨"x", none, [], "module x {}", ["old"]⟩]⟩ "x"
        = some ⟨"x", none, [], "module x {}", ["old"]⟩
    ∧ findInstalled
        { (⟨[], [⟨"x", none, [], "module x {}", ["old"]⟩]⟩ : SrMods) with
          installed := (⟨[], [⟨"x", none, [], "module x {}", ["old"]⟩]⟩ : SrMods).installed.map
            (fun e => if e.name = "x" then
              { e with dataPayloads := removeFirstPayload e.dataPayloads ++ ["new"] }
            else e) } "x"
        = some { (⟨"x", none, [], "module x {}", ["old"]⟩ : InstalledMod) with
            dataPayloads := ["new"] } := by
  refine ⟨by decide, ?_⟩
  exact (c10_add_module_data_replaces ⟨[], [⟨"x", none, [], "module x {}", ["old"]⟩]⟩
    "x" "new" ⟨"x", none, [], "module x {}", ["old"]⟩ (by decide) (by decide)).2

/-! ## Apply-pipeline theorems -/

/-- C1: whenever `sr_lydmods_sched_apply` returns without a fatal error
and reports `fail = 1`, the in-memory module registry tree is exactly
the one passed in (all schedule markers, module records and
staged-install entries preserved), no startup/running data file
operation was performed, and the reported change flag is 0, so the
apply can be retried. -/
theorem c1_fail_leaves_registry_untouched (o : Collab) (st : SrMods) (r : ApplyResult)
    (h : sr_lydmods_sched_apply o st = .ok r) (hf : r.fail = true) :
    r.mods = st ∧ r.change = false ∧ r.writes = [] := by
  unfold sr_lydmods_sched_apply at h
  cases hb : buildCandidate o st with
  | error e =>
      rw [hb] at h
      cases h
  | ok t =>
      obtain ⟨ctx, change, fail⟩ := t
      rw [hb] at h
      dsimp only at h
      by_cases hfail : fail = true
      · rw [if_pos hfail] at h
        injection h with h1
        subst h1
        exact ⟨rfl, rfl, rfl⟩
      · rw [if_neg hfail] at h
        by_cases hch : change = true
        · rw [if_pos hch] at h
          by_cases hrm : sr_lydmods_sched_check_removed_modules st ctx = true
          · rw [if_pos hrm] at h
            injection h with h1
            subst h1
            exact ⟨rfl, rfl, rfl⟩
          · rw [if_neg hrm] at h
            cases hud : sr_lydmods_sched_update_data o st ctx with
            | mk dfail writes =>
                rw [hud] at h
                dsimp only at h
                by_cases hdf : dfail = true
                · rw [if_pos hdf] at h
                  injection h with h1
                  subst h1
                  exact ⟨rfl, rfl, rfl⟩
                · rw [if_neg hdf] at h
                  cases hfin : sr_lydmods_sched_finalize o st ctx with
                  | mk st1 w2 =>
                      rw [hfin] at h
                      dsimp only at h
                      injection h with h1
                      subst h1
                      simp at hf
        · rw [if_neg hch] at h
          injection h with h1
          subst h1
          simp at hf

/-- An oracle for concrete runs: every parse fails, every load yields a
plain implemented module, nothing else happens. -/
def c1DemoOracle : Collab :=
  { parseModule := fun _ => none
    parseExtra := fun _ => []
    loadModule := fun n _ => some ⟨n, none, true, []⟩
    loadExtra := fun _ _ => []
    moduleDeps := fun _ => []
    importsOf := fun _ => []
    startupParseOk := true
    runningParseOk := true
    validateOk := true
    installClosure := fun _ => []
    rebuiltDeps := fun _ => ([], [], []) }

/-- C1 witness: a registry with one staged install whose schema text
fails to parse makes the apply fail (recoverably), and the theorem
yields the unchanged registry. -/
theorem c1_fail_leaves_registry_untouched_witness :
    sr_lydmods_sched_apply c1DemoOracle ⟨[], [⟨"x", none, [], "yangx", []⟩]⟩
        = .ok ⟨⟨[], [⟨"x", none, [], "yangx", []⟩]⟩, false, true, []⟩
    ∧ (⟨⟨[], [⟨"x", none, [], "yangx", []⟩]⟩, false, true, []⟩ : ApplyResult).mods
        = ⟨[], [⟨"x", none, [], "yangx", []⟩]⟩ := by
  have happ : sr_lydmods_sched_apply c1DemoOracle ⟨[], [⟨"x", none, [], "yangx", []⟩]⟩
      = .ok ⟨⟨[], [⟨"x", none, [], "yangx", []⟩]⟩, false, true, []⟩ := by rfl
  exact ⟨happ,
    (c1_fail_leaves_registry_untouched c1DemoOracle ⟨[], [⟨"x", none, [], "yangx", []⟩]⟩
      ⟨⟨[], [⟨"x", none, [], "yangx", []⟩]⟩, false, true, []⟩ happ rfl).1⟩

/-- C4: during an apply whose candidate universe got built with
`change = 1` and no earlier failure, a module carrying a removed marker
whose name and recorded revision are still implemented in the candidate
universe makes the apply set `fail = 1` and stop before any commit: the
registry is returned unchanged (the module still present as a full
record) and no data file operation happens. -/
theorem c4_removed_still_needed_aborts (o : Collab) (st : SrMods) (ctx : LyCtx)
    (m : SrModule)
    (hb : buildCandidate o st = .ok (ctx, true, false))
    (hm : m ∈ st.modules) (hri : removedStillImplemented ctx m = true) :
    sr_lydmods_sched_apply o st = .ok ⟨st, false, true, []⟩ ∧ m ∈ st.modules := by
  have hrm : sr_lydmods_sched_check_removed_modules st ctx = true := by
    simp only [sr_lydmods_sched_check_removed_modules, List.any_eq_true]
    exact ⟨m, hm, hri⟩
  refine ⟨?_, hm⟩
  unfold sr_lydmods_sched_apply
  rw [hb]
  simp [hrm]

/-- An oracle where loading module `A` pulls module `B` into the
context as implemented (`A` requires `B` implemented). -/
def c4Oracle : Collab :=
  { parseModule := fun _ => none
    parseExtra := fun _ => []
    loadModule := fun n _ => some ⟨n, none, true, []⟩
    loadExtra := fun n _ => if n = "A" then [⟨"B", none, true, []⟩] else []
    moduleDeps := fun _ => []
    importsOf := fun _ => []
    startupParseOk := true
    runningParseOk := true
    validateOk := true
    installClosure := fun _ => []
    rebuiltDeps := fun _ => ([], [], []) }

/-- Registry for the C4 witness: module `A` installed plainly, module
`B` scheduled for removal. -/
def c4St : SrMods :=
  ⟨[emptySrModule "A", { emptySrModule "B" with removed := true }], []⟩

/-- C4 witness: scheduling removal of `B` while loading `A` still makes
`B` implemented in the candidate universe aborts the apply with
`fail = 1` and an unchanged registry, `B` still present. -/
theorem c4_removed_still_needed_aborts_witness :
    sr_lydmods_sched_apply c4Oracle c4St = .ok ⟨c4St, false, true, []⟩
    ∧ { emptySrModule "B" with removed := true } ∈ c4St.modules := by
  have hb : buildCandidate c4Oracle c4St
      = .ok ([⟨"A", none, true, []⟩, ⟨"B", none, true, []⟩], true, false) := by rfl
  exact c4_removed_still_needed_aborts c4Oracle c4St
    [⟨"A", none, true, []⟩, ⟨"B", none, true, []⟩]
    { emptySrModule "B" with removed := true } hb (by decide) (by decide)

theorem featLoop_skips (o : Collab) (st : SrMods) (ms : List SrModule)
    (ctx : LyCtx) (change : Bool)
    (h : ∀ m ∈ ms, m.changedFeatures ≠ [] → ctxFindImpl ctx m.name = none) :
    featLoop o st ctx change ms = (ctx, change, false) := by
  induction ms with
  | nil => rfl
  | cons m rest ih =>
      by_cases he : m.changedFeatures.isEmpty
      · simp only [featLoop, he, if_pos]
        exact ih (fun x hx => h x (List.mem_cons_of_mem _ hx))
      · have hne : m.changedFeatures ≠ [] := by
          simpa [List.isEmpty_iff] using he
        have hfind := h m (List.mem_cons_self _ _) hne
        simp only [featLoop, he, hfind]
        exact ih (fun x hx => h x (List.mem_cons_of_mem _ hx))

/-- C8: in the feature-change phase, every module whose changed-feature
markers coexist with a removed marker (and which the candidate context
therefore holds no implemented module for) is skipped with a warning:
its feature changes are not applied to the candidate context, the phase
reports no fail on their account and no change, and the registry (with
its removed marker) is untouched, so the removal proceeds through the
later phases. -/
theorem c8_removed_wins_over_feature_changes (o : Collab) (st : SrMods) (ctx : LyCtx)
    (h : ∀ m ∈ st.modules, m.changedFeatures ≠ [] →
      m.removed = true ∧ ctxFindImpl ctx m.name = none) :
    sr_lydmods_sched_ctx_change_features o st ctx = (ctx, false, false) := by
  unfold sr_lydmods_sched_ctx_change_features
  exact featLoop_skips o st st.modules ctx false
    (fun m hm hne => (h m hm hne).2)

/-- Module for the C8 witness: scheduled for removal and carrying a
feature-change marker at the same time. -/
def c8Mod : SrModule :=
  { emptySrModule "r" with
    removed := true
    changedFeatures := [⟨"f", true⟩] }

/-- C8 witness: with the removed module absent from the candidate
context, the feature-change phase leaves the context and both flags
unchanged. -/
theorem c8_removed_wins_over_feature_changes_witness :
    sr_lydmods_sched_ctx_change_features c1DemoOracle ⟨[c8Mod], []⟩ [] = ([], false, false) := by
  exact c8_removed_wins_over_feature_changes c1DemoOracle ⟨[c8Mod], []⟩ []
    (by
      intro m hm hne
      simp only [List.mem_singleton] at hm
      subst hm
      exact ⟨rfl, rfl⟩)
